import Mathlib

/-
Verification of the query-orchestration client of the DataBridge AI
repository.  JavaScript strings are embedded as `List Char`; JavaScript
objects are embedded as Lean structures whose optional / falsy fields use
`Option` or the empty string; fallible operations return `Option`.
Each definition is a direct translation of the named source function.
-/

set_option maxRecDepth 4000

namespace DataBridge

/-- JavaScript truthiness of a string: the empty string is falsy. -/
def jsTruthy (s : List Char) : Bool := !s.isEmpty

/-- Substring containment over character lists, the model of
JavaScript `String.prototype.includes`. -/
def containsSub (hay needle : List Char) : Bool :=
  needle.isPrefixOf hay || (match hay with
    | [] => false
    | _ :: t => containsSub t needle)

/-- Lower-casing, the model of `String.prototype.toLowerCase` on the
ASCII queries the client handles. -/
def jsToLower (s : List Char) : List Char := s.map Char.toLower

/-- Whitespace in the sense of JavaScript `trim` and JSON, restricted to
the four characters relevant to the stream protocol. -/
def isJsWs (c : Char) : Bool := c = ' ' || c = '\t' || c = '\n' || c = '\r'

/-! ## A model of JSON.parse

`API.streamRequest` feeds every newline-delimited line of the response
body to `JSON.parse`.  The value space and the accepting behaviour of
`JSON.parse` are embedded by a small recursive-descent reader over
character lists (string escapes beyond the simple two-character forms
and fractional number syntax are not needed by the stream protocol and
are not modelled).  A line is delivered only when it is valid JSON in
its entirety; otherwise `JSON.parse` throws and the line is skipped. -/

/-- JSON values. -/
inductive Json where
  | jnull
  | jbool (b : Bool)
  | jnum (n : Int)
  | jstr (s : List Char)
  | jarr (xs : List Json)
  | jobj (kvs : List (List Char × Json))

/-- Drop leading JSON whitespace. -/
def skipWs : List Char → List Char
  | [] => []
  | c :: cs => if isJsWs c then skipWs cs else c :: cs

/-- Resolve a two-character escape inside a JSON string literal. -/
def unescapeChar (e : Char) : Char :=
  if e = 'n' then '\n' else if e = 't' then '\t' else if e = 'r' then '\r' else e

/-- Read the remainder of a JSON string literal after its opening quote,
returning the contents and the unread rest. -/
def parseStrRest : List Char → Option (List Char × List Char)
  | [] => none
  | c :: cs =>
    if c = '"' then some ([], cs)
    else if c = '\\' then
      match cs with
      | [] => none
      | e :: cs2 =>
        match parseStrRest cs2 with
        | some (s, rest) => some (unescapeChar e :: s, rest)
        | none => none
    else
      match parseStrRest cs with
      | some (s, rest) => some (c :: s, rest)
      | none => none

/-- Read an optionally signed integer literal. -/
def parseNum (s : List Char) : Option (Int × List Char) :=
  let p : Bool × List Char :=
    match s with
    | c :: cs => if c = '-' then (true, cs) else (false, s)
    | [] => (false, s)
  let ds := p.2.takeWhile Char.isDigit
  let rest := p.2.dropWhile Char.isDigit
  if ds.isEmpty then none
  else
    let n : Nat := ds.foldl (fun a c => a * 10 + (c.toNat - 48)) 0
    some (if p.1 then -(n : Int) else (n : Int), rest)

mutual

/-- Read one JSON value; the fuel bounds the nesting depth. -/
def parseVal : Nat → List Char → Option (Json × List Char)
  | 0, _ => none
  | Nat.succ fuel, s =>
    match skipWs s with
    | [] => none
    | c :: cs =>
      if c = '\x7b' then parseObjBody fuel cs true
      else if c = '[' then parseArrBody fuel cs true
      else if c = '"' then (parseStrRest cs).map (fun p => (Json.jstr p.1, p.2))
      else if c = 't' then
        if "rue".data.isPrefixOf cs then some (Json.jbool true, cs.drop 3) else none
      else if c = 'f' then
        if "alse".data.isPrefixOf cs then some (Json.jbool false, cs.drop 4) else none
      else if c = 'n' then
        if "ull".data.isPrefixOf cs then some (Json.jnull, cs.drop 3) else none
      else (parseNum (c :: cs)).map (fun p => (Json.jnum p.1, p.2))

/-- Read the members of a JSON object after the opening brace or a comma. -/
def parseObjBody : Nat → List Char → Bool → Option (Json × List Char)
  | 0, _, _ => none
  | Nat.succ fuel, s, first =>
    match skipWs s with
    | [] => none
    | c :: cs =>
      if c = '\x7d' then (if first then some (Json.jobj [], cs) else none)
      else if c = '"' then
        match parseStrRest cs with
        | none => none
        | some (key, rest1) =>
          match skipWs rest1 with
          | ':' :: rest2 =>
            match parseVal fuel rest2 with
            | none => none
            | some (v, rest3) =>
              match skipWs rest3 with
              | ',' :: rest4 =>
                match parseObjBody fuel rest4 false with
                | some (Json.jobj kvs, rest5) => some (Json.jobj ((key, v) :: kvs), rest5)
                | _ => none
              | '\x7d' :: rest4 => some (Json.jobj [(key, v)], rest4)
              | _ => none
          | _ => none
      else none

/-- Read the elements of a JSON array after the opening bracket or a comma. -/
def parseArrBody : Nat → List Char → Bool → Option (Json × List Char)
  | 0, _, _ => none
  | Nat.succ fuel, s, first =>
    match skipWs s with
    | [] => none
    | c :: cs =>
      if c = ']' then (if first then some (Json.jarr [], cs) else none)
      else
        match parseVal fuel (c :: cs) with
        | none => none
        | some (v, rest) =>
          match skipWs rest with
          | ',' :: rest2 =>
            match parseArrBody fuel rest2 false with
            | some (Json.jarr xs, r) => some (Json.jarr (v :: xs), r)
            | _ => none
          | ']' :: rest2 => some (Json.jarr [v], rest2)
          | _ => none

end

/-- Model of `JSON.parse` on one line: the whole line must be consumed
(up to trailing whitespace) or the call throws, which the stream reader
turns into skipping the line. -/
def jsonParseChars (s : List Char) : Option Json :=
  match parseVal (s.length + 1) s with
  | some (j, rest) => if (skipWs rest).isEmpty then some j else none
  | none => none

/-! ## API.streamRequest (src/unnamed/part_006 lines 429-476)

```js
while (true) {
  const chunk = decoder.decode(value, { stream: true });
  const lines = chunk.split(a newline);
  for (const line of lines)
    if (line.trim()) try { onChunk(JSON.parse(line)); } catch ...
}
```

Each read chunk is split on newlines in isolation; no partial line is
carried over to the next read. -/

/-- Model of `String.prototype.split` at the newline separator. -/
def splitNl : List Char → List (List Char)
  | [] => [[]]
  | c :: cs =>
    if c = '\n' then [] :: splitNl cs
    else
      match splitNl cs with
      | [] => [[c]]
      | l :: ls => (c :: l) :: ls

/-- Truthiness of `line.trim()`: the line has a non-whitespace character. -/
def jsTrimNonEmpty (l : List Char) : Bool := l.any (fun c => !isJsWs c)

/-- The event a single line contributes: its parse when the trimmed line
is non-empty and `JSON.parse` accepts it, nothing otherwise. -/
def lineEvent (parse : List Char → Option α) (l : List Char) : Option α :=
  if jsTrimNonEmpty l then parse l else none

/-- Events contributed by one read chunk: the chunk is split on newlines
and each line is parsed independently. -/
def processChunk (parse : List Char → Option α) (chunk : List Char) : List α :=
  (splitNl chunk).filterMap (lineEvent parse)

/-- Events delivered to `onChunk` over a whole read sequence, in order. -/
def deliver (parse : List Char → Option α) (chunks : List (List Char)) : List α :=
  chunks.flatMap (processChunk parse)

/-- Model of `API.streamRequest`: the sequence of parsed events handed to
the `onChunk` callback for a given sequence of read chunks. -/
def streamRequestDeliver (chunks : List (List Char)) : List Json :=
  deliver jsonParseChars chunks

/-- A response body encoding one newline-terminated JSON line per event. -/
def ndjsonBody (ls : List (List Char)) : List Char :=
  (ls.map (fun l => l ++ ['\n'])).flatten

/-! ## Utils.maskApiKey (src/unnamed/part_005 lines 9-12)

```js
maskApiKey(key) {
  if (!key || key.length < 8) return a fixed 8-bullet mask;
  return mask + key.slice(-4);
}
``` -/

/-- The fixed eight-bullet mask literal. -/
def bulletMask : List Char := List.replicate 8 '•'

/-- Model of `key.slice(-4)`: the last four characters (all of `key`
when it is shorter than four characters). -/
def sliceLast4 (key : List Char) : List Char := key.drop (key.length - 4)

/-- Model of `Utils.maskApiKey`. -/
def maskApiKey (key : List Char) : List Char :=
  if !jsTruthy key || key.length < 8 then bulletMask
  else bulletMask ++ sliceLast4 key

/-! ## Utils.detectPlatform (src/unnamed/part_005 lines 17-39) -/

/-- The declared Stripe routing keywords. -/
def stripeKeywords : List (List Char) :=
  ["invoice".data, "payment".data, "subscription".data, "revenue".data,
   "charge".data, "customer".data, "refund".data, "payout".data,
   "balance".data, "transaction".data, "paid".data, "unpaid".data,
   "overdue".data, "billing".data, "stripe".data, "money".data,
   "amount".data, "price".data, "mrr".data, "arr".data, "churn".data]

/-- The declared Zendesk routing keywords. -/
def zendeskKeywords : List (List Char) :=
  ["ticket".data, "support".data, "help".data, "issue".data,
   "request".data, "agent".data, "resolution".data, "response".data,
   "open".data, "closed".data, "pending".data, "escalated".data,
   "zendesk".data, "satisfaction".data, "csat".data, "sla".data]

/-- Keyword score: how many keywords occur as substrings of the
lower-cased query (`keywords.filter(k => lowerQuery.includes(k)).length`). -/
def keywordScore (keywords : List (List Char)) (lowerQuery : List Char) : Nat :=
  (keywords.filter (fun k => containsSub lowerQuery k)).length

/-- Model of `Utils.detectPlatform`: compare the Stripe and Zendesk
keyword scores; on a strict winner return that platform, otherwise
return `none` (the JavaScript returns `null`). -/
def detectPlatform (query : List Char) : Option (List Char) :=
  if keywordScore stripeKeywords (jsToLower query) >
      keywordScore zendeskKeywords (jsToLower query) then some "stripe".data
  else if keywordScore zendeskKeywords (jsToLower query) >
      keywordScore stripeKeywords (jsToLower query) then some "zendesk".data
  else none

end DataBridge

namespace DataBridge

/-- C10: `Utils.maskApiKey` returns the fixed eight-bullet mask when the
key is falsy or shorter than eight characters, and otherwise the mask
followed by exactly the last four characters of the key, which form a
suffix of the key of length four — so at most the last four characters
of the input are ever revealed. -/
theorem maskApiKey_reveals_at_most_last4 (key : List Char) :
    (jsTruthy key = false ∨ key.length < 8 → maskApiKey key = bulletMask)
    ∧ (jsTruthy key = true ∧ 8 ≤ key.length →
        maskApiKey key = bulletMask ++ key.drop (key.length - 4)
        ∧ (key.drop (key.length - 4)).length = 4
        ∧ key.drop (key.length - 4) <:+ key) := by
  constructor
  · intro h
    unfold maskApiKey
    rcases h with h | h
    · simp [h]
    · simp [h]
  · rintro ⟨h1, h2⟩
    refine ⟨?_, ?_, List.drop_suffix _ _⟩
    · unfold maskApiKey sliceLast4
      simp [h1, Nat.not_lt.mpr h2]
    · rw [List.length_drop]
      omega

/-- Witness for C10 at two concrete keys. -/
theorem maskApiKey_reveals_at_most_last4_witness :
    maskApiKey "short".data = bulletMask
    ∧ maskApiKey "secretkey123".data = bulletMask ++ "y123".data := by
  constructor
  · exact (maskApiKey_reveals_at_most_last4 "short".data).1 (Or.inr (by decide))
  · have h := ((maskApiKey_reveals_at_most_last4 "secretkey123".data).2
      ⟨by decide, by decide⟩).1
    exact h.trans (by decide)

/-- C4 counterexample: the query text given here produces equal keyword
scores for both platforms, yet `Utils.detectPlatform` returns `null`
(here `none`) instead of a definite platform chosen by a tie-break
chain — no such chain exists in the code. -/
theorem detectPlatform_tie_returns_none :
    keywordScore stripeKeywords (jsToLower "hello".data)
      = keywordScore zendeskKeywords (jsToLower "hello".data)
    ∧ detectPlatform "hello".data = none := by
  decide

/-- C4 amended: `Utils.detectPlatform` is deterministic — identical
texts always classify identically — and on equal keyword scores it
returns `none` (no platform) rather than breaking the tie; a strictly
higher score yields that platform. -/
theorem detectPlatform_deterministic_tie_none (q₁ q₂ : List Char) (h : q₁ = q₂) :
    detectPlatform q₁ = detectPlatform q₂
    ∧ (keywordScore stripeKeywords (jsToLower q₁)
        = keywordScore zendeskKeywords (jsToLower q₁) → detectPlatform q₁ = none)
    ∧ (keywordScore stripeKeywords (jsToLower q₁)
        > keywordScore zendeskKeywords (jsToLower q₁) →
        detectPlatform q₁ = some "stripe".data)
    ∧ (keywordScore zendeskKeywords (jsToLower q₁)
        > keywordScore stripeKeywords (jsToLower q₁) →
        detectPlatform q₁ = some "zendesk".data) := by
  subst h
  refine ⟨rfl, ?_, ?_, ?_⟩ <;> intro h <;> unfold detectPlatform
  · rw [if_neg (by omega), if_neg (by omega)]
  · rw [if_pos h]
  · rw [if_neg (by omega), if_pos h]

/-- Witness for the amended C4 at a concrete query. -/
theorem detectPlatform_deterministic_tie_none_witness :
    detectPlatform "open tickets".data = some "zendesk".data :=
  (detectPlatform_deterministic_tie_none "open tickets".data "open tickets".data
    rfl).2.2.2 (by decide)

/-! ## Stream delivery lemmas (C1) -/

theorem splitNl_nil : splitNl [] = [[]] := rfl

theorem splitNl_cons (c : Char) (cs : List Char) :
    splitNl (c :: cs) =
      if c = '\n' then [] :: splitNl cs
      else
        match splitNl cs with
        | [] => [[c]]
        | l :: ls => (c :: l) :: ls := by
  rfl

theorem splitNl_ne_nil (s : List Char) : splitNl s ≠ [] := by
  cases s with
  | nil => simp [splitNl]
  | cons c cs =>
    rw [splitNl_cons]
    split
    · simp
    · cases h : splitNl cs with
      | nil => simp
      | cons l ls => simp

theorem splitNl_cons_nl (cs : List Char) : splitNl ('\n' :: cs) = [] :: splitNl cs := by
  rw [splitNl_cons, if_pos rfl]

theorem splitNl_cons_ne (c : Char) (cs : List Char) (h : c ≠ '\n') :
    splitNl (c :: cs) = (c :: (splitNl cs).headI) :: (splitNl cs).tail := by
  rw [splitNl_cons, if_neg h]
  cases hsp : splitNl cs with
  | nil => exact absurd hsp (splitNl_ne_nil cs)
  | cons l ls => simp

theorem getLast?_cons_ne_nil (a : List Char) (l : List (List Char)) (h : l ≠ []) :
    (a :: l).getLast? = l.getLast? := by
  cases l with
  | nil => exact absurd rfl h
  | cons b bs => exact List.getLast?_cons_cons

theorem splitNl_ends_nl (s : List Char) (h : s.getLast? = some '\n') :
    (splitNl s).getLast? = some [] ∧ 2 ≤ (splitNl s).length := by
  induction s with
  | nil => simp at h
  | cons c cs ih =>
    cases cs with
    | nil =>
      simp [List.getLast?] at h
      subst h
      simp [splitNl_cons_nl, splitNl_nil, List.getLast?]
    | cons d ds =>
      have h2 : (d :: ds).getLast? = some '\n' := by
        rw [List.getLast?_cons_cons] at h; exact h
      obtain ⟨hlast, hlen⟩ := ih h2
      by_cases hc : c = '\n'
      · subst hc
        rw [splitNl_cons_nl]
        refine ⟨?_, by simp; omega⟩
        rw [getLast?_cons_ne_nil _ _ (splitNl_ne_nil _)]
        exact hlast
      · rw [splitNl_cons_ne c _ hc]
        cases hsp : splitNl (d :: ds) with
        | nil => exact absurd hsp (splitNl_ne_nil _)
        | cons k0 ks =>
          cases ks with
          | nil => rw [hsp] at hlen; simp at hlen
          | cons k1 ks1 =>
            rw [hsp] at hlast
            constructor
            · simp only [List.headI, List.tail]
              rw [List.getLast?_cons_cons] at hlast ⊢
              exact hlast
            · simp

theorem splitNl_append_nl (s : List Char) (h : s.getLast? = some '\n') (t : List Char) :
    splitNl (s ++ t) = (splitNl s).dropLast ++ splitNl t := by
  induction s with
  | nil => simp at h
  | cons c cs ih =>
    cases cs with
    | nil =>
      simp [List.getLast?] at h
      subst h
      rw [List.singleton_append, splitNl_cons_nl, splitNl_cons_nl, splitNl_nil]
      simp
    | cons d ds =>
      have h2 : (d :: ds).getLast? = some '\n' := by
        rw [List.getLast?_cons_cons] at h; exact h
      have ih2 := ih h2
      by_cases hc : c = '\n'
      · subst hc
        rw [List.cons_append, splitNl_cons_nl, splitNl_cons_nl, ih2,
          List.dropLast_cons_of_ne_nil (splitNl_ne_nil _)]
        simp
      · obtain ⟨hlast, hlen⟩ := splitNl_ends_nl (d :: ds) h2
        cases hsp : splitNl (d :: ds) with
        | nil => exact absurd hsp (splitNl_ne_nil _)
        | cons k0 ks =>
          cases ks with
          | nil => rw [hsp] at hlen; simp at hlen
          | cons k1 ks1 =>
            rw [List.cons_append, splitNl_cons_ne c _ hc, splitNl_cons_ne c _ hc,
              ih2, hsp]
            simp

theorem lineEvent_nil (parse : List Char → Option α) : lineEvent parse [] = none := by
  simp [lineEvent, jsTrimNonEmpty]

theorem processChunk_nil (parse : List Char → Option α) : processChunk parse [] = [] := by
  simp [processChunk, splitNl_nil, List.filterMap, lineEvent_nil]

theorem processChunk_append (parse : List Char → Option α) (c t : List Char)
    (h : c = [] ∨ c.getLast? = some '\n') :
    processChunk parse (c ++ t) = processChunk parse c ++ processChunk parse t := by
  rcases h with h | h
  · subst h
    simp [processChunk_nil]
  · obtain ⟨hlast, hlen⟩ := splitNl_ends_nl c h
    rcases List.eq_nil_or_concat (splitNl c) with hn | ⟨ini, a, hsp⟩
    · exact absurd hn (splitNl_ne_nil c)
    · rw [List.concat_eq_append] at hsp
      have ha : a = [] := by
        rw [hsp, List.getLast?_concat] at hlast
        exact Option.some.inj hlast
      unfold processChunk
      rw [splitNl_append_nl c h t, hsp, List.dropLast_concat]
      rw [List.filterMap_append]
      congr 1
      rw [List.filterMap_append]
      have hone : List.filterMap (lineEvent parse) [a] = [] := by
        rw [ha]
        simp [lineEvent_nil]
      rw [hone, List.append_nil]

theorem deliver_aligned (parse : List Char → Option α) (chunks : List (List Char))
    (h : ∀ c ∈ chunks, c = [] ∨ c.getLast? = some '\n') :
    deliver parse chunks = processChunk parse chunks.flatten := by
  induction chunks with
  | nil => simp [deliver, processChunk_nil]
  | cons c rest ih =>
    have hc := h c (List.mem_cons_self c rest)
    have hrest : ∀ x ∈ rest, x = [] ∨ x.getLast? = some '\n' :=
      fun x hx => h x (List.mem_cons_of_mem c hx)
    rw [List.flatten_cons, processChunk_append parse c rest.flatten hc]
    show processChunk parse c ++ deliver parse rest = _
    rw [ih hrest]

theorem splitNl_noNl_append (l : List Char) (hl : '\n' ∉ l) (b : List Char) :
    splitNl (l ++ b) = (l ++ (splitNl b).headI) :: (splitNl b).tail := by
  induction l with
  | nil =>
    simp only [List.nil_append]
    cases hsp : splitNl b with
    | nil => exact absurd hsp (splitNl_ne_nil b)
    | cons m ms => simp
  | cons c l2 ih =>
    have hc : c ≠ '\n' := fun he => hl (he ▸ List.mem_cons_self c l2)
    have hl2 : '\n' ∉ l2 := fun hm => hl (List.mem_cons_of_mem c hm)
    rw [List.cons_append, splitNl_cons_ne c _ hc, ih hl2]
    simp

theorem processChunk_ndjson (parse : List Char → Option α) (lines : List (List Char))
    (h : ∀ l ∈ lines, '\n' ∉ l) :
    processChunk parse (ndjsonBody lines) = lines.filterMap (lineEvent parse) := by
  induction lines with
  | nil =>
    show processChunk parse [] = []
    exact processChunk_nil parse
  | cons l rest ih =>
    have hl := h l (List.mem_cons_self l rest)
    have hrest : ∀ x ∈ rest, '\n' ∉ x := fun x hx => h x (List.mem_cons_of_mem l hx)
    show processChunk parse ((l ++ ['\n']) ++ ndjsonBody rest) = _
    rw [List.append_assoc, List.singleton_append]
    unfold processChunk
    rw [splitNl_noNl_append l hl ('\n' :: ndjsonBody rest), splitNl_cons_nl]
    simp only [List.headI, List.tail, List.append_nil]
    have ihh : List.filterMap (lineEvent parse) (splitNl (ndjsonBody rest))
        = List.filterMap (lineEvent parse) rest := ih hrest
    rw [List.filterMap_cons, List.filterMap_cons, ihh]

theorem filterMap_lineEvent_eq (parse : List Char → Option α) (lines : List (List Char))
    (h : ∀ l ∈ lines, jsTrimNonEmpty l = true) :
    lines.filterMap (lineEvent parse) = lines.filterMap parse := by
  induction lines with
  | nil => rfl
  | cons l rest ih =>
    have hl := h l (List.mem_cons_self l rest)
    have hrest : ∀ x ∈ rest, jsTrimNonEmpty x = true :=
      fun x hx => h x (List.mem_cons_of_mem l hx)
    rw [List.filterMap_cons, List.filterMap_cons, ih hrest]
    simp [lineEvent, hl]

theorem filterMap_length_all_some (f : List Char → Option α) (lines : List (List Char))
    (h : ∀ l ∈ lines, (f l).isSome = true) :
    (lines.filterMap f).length = lines.length := by
  induction lines with
  | nil => rfl
  | cons l rest ih =>
    have hl := h l (List.mem_cons_self l rest)
    have hrest : ∀ x ∈ rest, (f x).isSome = true :=
      fun x hx => h x (List.mem_cons_of_mem l hx)
    rw [List.filterMap_cons]
    cases hf : f l with
    | none => rw [hf] at hl; simp at hl
    | some v => simp [ih hrest]

/-- The terminal result line used by the concrete stream scenarios. -/
def resultLine : List Char := "\x7b\"type\":\"log\"\x7d".data

/-- The first half of `resultLine` as read by one chunk. -/
def fragmentA : List Char := "\x7b\"type\":".data

/-- The second half of `resultLine`, with the terminating newline, as
read by the next chunk. -/
def fragmentB : List Char := "\"log\"\x7d\n".data

/-- C1 counterexample: a response body encoding exactly one JSON event,
read as two chunks that split the line mid-way, delivers no event at
all — each fragment fails to parse and is dropped, although the same
body read as a single chunk delivers the event.  The claim that every
encoded event is delivered regardless of how the byte stream is split
is therefore false. -/
theorem streamRequest_split_line_drops_event :
    ([fragmentA, fragmentB] : List (List Char)).flatten = ndjsonBody [resultLine]
    ∧ (jsonParseChars resultLine).isSome = true
    ∧ streamRequestDeliver [ndjsonBody [resultLine]]
        = [Json.jobj [("type".data, Json.jstr "log".data)]]
    ∧ streamRequestDeliver [fragmentA, fragmentB] = [] :=
  ⟨rfl, rfl, rfl, rfl⟩

/-- C1 amended: when no JSON line is split across read-chunk boundaries
(every chunk is empty or newline-terminated), `API.streamRequest`
delivers every encoded event to `onChunk` exactly once and in order. -/
theorem streamRequest_line_aligned_delivery
    (lines chunks : List (List Char))
    (hl : ∀ l ∈ lines, '\n' ∉ l ∧ jsTrimNonEmpty l = true ∧ (jsonParseChars l).isSome = true)
    (hc : chunks.flatten = ndjsonBody lines)
    (ha : ∀ c ∈ chunks, c = [] ∨ c.getLast? = some '\n') :
    streamRequestDeliver chunks = lines.filterMap jsonParseChars
    ∧ (lines.filterMap jsonParseChars).length = lines.length := by
  constructor
  · show deliver jsonParseChars chunks = _
    rw [deliver_aligned _ _ ha, hc,
      processChunk_ndjson _ _ (fun l h2 => (hl l h2).1),
      filterMap_lineEvent_eq _ _ (fun l h2 => (hl l h2).2.1)]
  · exact filterMap_length_all_some _ _ (fun l h2 => (hl l h2).2.2)

/-- Witness for the amended C1: one newline-terminated chunk carrying
one event is delivered exactly once. -/
theorem streamRequest_line_aligned_delivery_witness :
    streamRequestDeliver [resultLine ++ ['\n']]
      = [Json.jobj [("type".data, Json.jstr "log".data)]] := by
  have h := streamRequest_line_aligned_delivery [resultLine] [resultLine ++ ['\n']]
    (by decide) (by decide) (by decide)
  exact h.1.trans rfl

/-! ## App.addChatMessage and App.handleQuery (src/static/js/app.js)

The terminal `ResultPayload` and the per-platform sub-results of a bulk
response are embedded as structures whose optional JavaScript fields are
`Option`s and whose falsy string fields use the empty string.  `α` is
the type of the opaque upstream data records shown in tables.  The
external markdown renderer (`marked.parse`) is modelled as the identity
on the summary text, which preserves emptiness and non-emptiness. -/

/-- One element of a payload `data` array: either a bulk per-platform
sub-result, a knowledge record, or a plain data record. -/
structure SubRec (α : Type) where
  rtype : Option String := none
  answer : String := ""
  topic : String := ""
  platform : Option String := none
  success : Bool := false
  summary : String := ""
  error : String := ""
  rdata : Option (List α) := none

/-- The terminal result payload as the client renders it. -/
structure Payload (α : Type) where
  success : Bool := false
  summary : String := ""
  error : String := ""
  ptype : Option String := none
  pdata : Option (List (SubRec α)) := none

/-- The bulk-rendering test
`response.type === a bulk marker && Array.isArray(response.data)`. -/
def isBulkResponse (p : Payload α) : Bool :=
  match p.ptype, p.pdata with
  | some t, some _ => if t = "bulk_response" then true else false
  | _, _ => false

/-- The narrative text of the rendered AI message, following
`App.addChatMessage`: the bulk path falls back to a fixed phrase on an
empty summary, the knowledge path prefers the knowledge answer, and the
standard single-response path shows the summary as is. -/
def narrative (p : Payload α) : String :=
  if isBulkResponse p then
    (if p.summary = "" then "Executed multiple actions." else p.summary)
  else
    match p.pdata with
    | some (r :: _) =>
      if r.rtype = some "knowledge" then (if r.answer = "" then p.summary else r.answer)
      else p.summary
    | _ => p.summary

/-- How one streamed query run ends for `App.handleQuery`: the stream
finished (with the captured terminal payload, if any result event
arrived), or an error was thrown. -/
inductive QueryOutcome (α : Type) where
  | finished (finalResponse : Option (Payload α))
  | threw (message : String)

/-- The object `App.handleQuery` passes to `addChatMessage` on the error
paths: `{ summary: errorMsg, data: null }`. -/
def mkErrorPayload (msg : String) : Payload α := { summary := msg }

/-- The authentication-error test in the catch handler:
`error.message && (message includes a session-expiry phrase or the word
token)`; on such errors the user is redirected and no chat message is
added. -/
def isAuthError (m : String) : Bool :=
  (if m = "" then false else true)
    && (containsSub m.data "session has expired".data || containsSub m.data "token".data)

/-- Model of the message-appending behaviour of `App.handleQuery` after
the stream ends (src/static/js/app.js lines 1669-1706): the list of
AI payload objects handed to `addChatMessage`, in order. -/
def handleQueryAiMessages : QueryOutcome α → List (Payload α)
  | .finished (some p) =>
    if p.success then [p]
    else [mkErrorPayload (if p.error = "" then "Failed to process query" else p.error)]
  | .finished none => [mkErrorPayload "No response received"]
  | .threw m =>
    if isAuthError m then []
    else [mkErrorPayload (if m = "" then "An error occurred while processing your request." else m)]

theorem narrative_empty_implies (p : Payload α) : narrative p = "" → p.summary = "" := by
  unfold narrative
  intro h
  by_cases hb : isBulkResponse p = true
  · rw [if_pos hb] at h
    by_cases hs : p.summary = ""
    · exact hs
    · rw [if_neg hs] at h; exact absurd h hs
  · rw [if_neg hb] at h
    cases hd : p.pdata with
    | none => rw [hd] at h; exact h
    | some l =>
      cases l with
      | nil => rw [hd] at h; exact h
      | cons r rest =>
        rw [hd] at h
        have h2 : (if r.rtype = some "knowledge" then
            (if r.answer = "" then p.summary else r.answer) else p.summary) = "" := h
        by_cases hk : r.rtype = some "knowledge"
        · rw [if_pos hk] at h2
          by_cases ha : r.answer = ""
          · rw [if_pos ha] at h2; exact h2
          · rw [if_neg ha] at h2; exact absurd h2 ha
        · rw [if_neg hk] at h2; exact h2

/-- The concrete C2 counterexample payload: a successful terminal result
whose summary is missing. -/
def emptySummarySuccess : Payload Unit := { success := true }

/-- C2 counterexample: a completed run whose terminal payload has
success set and no summary appends one AI message whose rendered
narrative is the empty string — a blank response, contradicting the
claim that such a payload still yields non-empty visible narrative. -/
theorem handleQuery_success_empty_summary_blank :
    handleQueryAiMessages (QueryOutcome.finished (some emptySummarySuccess))
      = [emptySummarySuccess]
    ∧ narrative emptySummarySuccess = ""
    ∧ emptySummarySuccess.success = true := ⟨rfl, rfl, rfl⟩

/-- C2 amended: every completed run appends at most one AI message;
none is appended exactly when the thrown error is an authentication
error (the user is redirected instead); and a blank narrative can occur
only for a success payload whose summary is empty — every failure,
error and bulk path yields non-empty narrative text. -/
theorem handleQuery_messages_amended (α : Type) (o : QueryOutcome α) :
    (handleQueryAiMessages o).length ≤ 1
    ∧ (handleQueryAiMessages o = [] ↔ ∃ m, o = .threw m ∧ isAuthError m = true)
    ∧ (∀ p ∈ handleQueryAiMessages o, narrative p = "" →
        p.success = true ∧ p.summary = "") := by
  refine ⟨?_, ?_, ?_⟩
  · cases o with
    | finished fr =>
      cases fr with
      | none => simp [handleQueryAiMessages]
      | some p =>
        by_cases hs : p.success <;> simp [handleQueryAiMessages, hs]
    | threw m =>
      by_cases ha : isAuthError m <;> simp [handleQueryAiMessages, ha]
  · cases o with
    | finished fr =>
      cases fr with
      | none => simp [handleQueryAiMessages]
      | some p =>
        by_cases hs : p.success <;> simp [handleQueryAiMessages, hs]
    | threw m =>
      by_cases ha : isAuthError m <;> simp [handleQueryAiMessages, ha]
  · intro p hp hn
    cases o with
    | finished fr =>
      cases fr with
      | none =>
        simp [handleQueryAiMessages] at hp
        subst hp
        simp [narrative, mkErrorPayload, isBulkResponse] at hn
      | some q =>
        by_cases hs : q.success
        · simp [handleQueryAiMessages, hs] at hp
          subst hp
          exact ⟨hs, narrative_empty_implies p hn⟩
        · simp [handleQueryAiMessages, hs] at hp
          subst hp
          by_cases he : q.error = "" <;>
            simp [he, narrative, mkErrorPayload, isBulkResponse] at hn
    | threw m =>
      by_cases ha : isAuthError m
      · simp [handleQueryAiMessages, ha] at hp
      · simp [handleQueryAiMessages, ha] at hp
        subst hp
        by_cases hm : m = "" <;>
          simp [hm, narrative, mkErrorPayload, isBulkResponse] at hn

/-- Witness for the amended C2: a thrown authentication error appends no
chat message. -/
theorem handleQuery_messages_amended_witness :
    handleQueryAiMessages (QueryOutcome.threw "Invalid token" : QueryOutcome Unit) = [] :=
  ((handleQuery_messages_amended Unit (QueryOutcome.threw "Invalid token")).2.1).mpr
    ⟨"Invalid token", rfl, by decide⟩

/-! ## Bulk sub-result card rendering (src/static/js/app.js lines 1788-1866) -/

/-- The body a bulk sub-result card renders to: a data table, an error
marker replacing the summary, the summary plus the explicit note
reading No additional data available., or the bare summary. -/
inductive SubBody (α : Type) where
  | table (summary : String) (items : List α)
  | errorMark (msg : String)
  | noData (summary : String)
  | plain (summary : String)

/-- The sub-result summary text with its success-dependent fallback. -/
def subSummaryRaw (s : SubRec α) : String :=
  if s.summary = "" then (if s.success then "Action executed." else "Action failed.")
  else s.summary

/-- Model of the per-sub-result branch chain in `App.addChatMessage`:
a non-empty data array renders a table; otherwise a present error field
renders the error marker; otherwise a successful empty data array
renders the no-data note; otherwise only the summary is shown. -/
def renderSubResult (s : SubRec α) : SubBody α :=
  match s.rdata with
  | some (x :: xs) => SubBody.table (subSummaryRaw s) (x :: xs)
  | d =>
    if s.error = "" then
      (match d with
       | some [] => if s.success then SubBody.noData (subSummaryRaw s)
                    else SubBody.plain (subSummaryRaw s)
       | _ => SubBody.plain (subSummaryRaw s))
    else SubBody.errorMark s.error

/-- Does the rendered card carry the error marker? -/
def presentsErrorMark : SubBody α → Bool
  | SubBody.errorMark _ => true
  | _ => false

/-- Does the rendered card carry the explicit no-data note? -/
def presentsNoDataNote : SubBody α → Bool
  | SubBody.noData _ => true
  | _ => false

/-- Does the sub-result carry a non-empty data array? -/
def hasNonemptyData (s : SubRec α) : Bool :=
  match s.rdata with
  | some (_ :: _) => true
  | _ => false

/-- Does the sub-result carry an empty data array (as opposed to a
missing one)? -/
def hasEmptyArrData (s : SubRec α) : Bool :=
  match s.rdata with
  | some [] => true
  | _ => false

/-- The concrete C3 counterexample: a failed sub-result that carries
both an error field and a non-empty data array. -/
def subWithErrorAndData : SubRec Unit :=
  { success := false, error := "rate limited", rdata := some [()] }

/-- C3 counterexample: a sub-result carrying an error field together
with a non-empty data array renders the data table, not the error
marker — refuting the claim that every sub-result with an error field
presents the error marker. -/
theorem bulk_subresult_error_with_data_no_marker :
    subWithErrorAndData.error = "rate limited"
    ∧ presentsErrorMark (renderSubResult subWithErrorAndData) = false
    ∧ renderSubResult subWithErrorAndData = SubBody.table "Action failed." [()] :=
  ⟨rfl, rfl, rfl⟩

/-- C3 amended: the no-data note is rendered exactly for successful
sub-results with a present-but-empty data array and no error field, and
the error marker is rendered exactly for sub-results with an error
field and no non-empty data array. -/
theorem bulk_subresult_markers (α : Type) (s : SubRec α) :
    (presentsNoDataNote (renderSubResult s) = true
      ↔ s.success = true ∧ hasEmptyArrData s = true ∧ s.error = "")
    ∧ (presentsErrorMark (renderSubResult s) = true
      ↔ s.error ≠ "" ∧ hasNonemptyData s = false) := by
  cases hd : s.rdata with
  | none =>
    by_cases he : s.error = "" <;>
      by_cases hs : s.success = true <;>
        simp [renderSubResult, presentsNoDataNote, presentsErrorMark,
          hasEmptyArrData, hasNonemptyData, hd, he, hs]
  | some l =>
    cases l with
    | nil =>
      by_cases he : s.error = "" <;>
        by_cases hs : s.success = true <;>
          simp [renderSubResult, presentsNoDataNote, presentsErrorMark,
            hasEmptyArrData, hasNonemptyData, hd, he, hs]
    | cons x xs =>
      by_cases he : s.error = "" <;>
        simp [renderSubResult, presentsNoDataNote, presentsErrorMark,
          hasEmptyArrData, hasNonemptyData, hd, he]

/-- Witness for the amended C3: a successful sub-result with an empty
data array and no error renders the no-data note. -/
theorem bulk_subresult_markers_witness :
    presentsNoDataNote (renderSubResult
      ({ success := true, rdata := some ([] : List Unit) } : SubRec Unit)) = true :=
  ((bulk_subresult_markers Unit
    { success := true, rdata := some ([] : List Unit) }).1).mpr ⟨rfl, rfl, rfl⟩

/-! ## Client query history (src/static/js/app.js lines 1602-1609,
2371-2375, 2471-2495)

`App.queryHistory` and `App.queryHistoryIndex` are mutated by exactly
four operations: a query submission (push unless equal to the last
entry, shift when over the 50-entry cap, reset the index), cycling up,
cycling down, and the index reset performed by the input handler. -/

/-- The mutable client history state: the entry list and the cycling
index (`-1` meaning not cycling). -/
structure HistState where
  hist : List String
  idx : Int

/-- The initial state: `queryHistory: []`, `queryHistoryIndex: -1`. -/
def initHistState : HistState := { hist := [], idx := -1 }

/-- The `queryHistoryMax` cap. -/
def queryHistoryMax : Nat := 50

/-- The history update performed by `App.handleQuery` on submission. -/
def submitStep (s : HistState) (q : String) : HistState :=
  let h :=
    if s.hist.getLast? ≠ some q then
      (let h2 := s.hist ++ [q]
       if h2.length > queryHistoryMax then h2.tail else h2)
    else s.hist
  { hist := h, idx := -1 }

/-- Model of `App.cycleQueryHistory` in the up direction. -/
def cycleUpStep (s : HistState) : HistState :=
  if s.hist.isEmpty then s
  else if s.idx = -1 then { s with idx := (s.hist.length : Int) - 1 }
  else if s.idx > 0 then { s with idx := s.idx - 1 }
  else s

/-- Model of `App.cycleQueryHistory` in the down direction. -/
def cycleDownStep (s : HistState) : HistState :=
  if s.hist.isEmpty then s
  else if s.idx = -1 then s
  else if s.idx + 1 ≥ (s.hist.length : Int) then { s with idx := -1 }
  else { s with idx := s.idx + 1 }

/-- The index reset done by the input handler while typing. -/
def resetIdxStep (s : HistState) : HistState := { s with idx := -1 }

/-- The operations that touch the history state. -/
inductive HistOp where
  | submit (q : String)
  | cycleUp
  | cycleDown
  | resetIdx

/-- One step of the history state machine. -/
def histStep (s : HistState) : HistOp → HistState
  | HistOp.submit q => submitStep s q
  | HistOp.cycleUp => cycleUpStep s
  | HistOp.cycleDown => cycleDownStep s
  | HistOp.resetIdx => resetIdxStep s

/-- Run a sequence of operations from the initial state. -/
def runHist (ops : List HistOp) : HistState :=
  ops.foldl histStep initHistState

/-- The claimed invariant: at most 50 entries, no equal adjacent
entries, and an index that is `-1` or a valid position. -/
def HistInv (s : HistState) : Prop :=
  s.hist.length ≤ queryHistoryMax
  ∧ s.hist.Chain' (· ≠ ·)
  ∧ (s.idx = -1 ∨ (0 ≤ s.idx ∧ s.idx < (s.hist.length : Int)))

theorem submitStep_inv (s : HistState) (q : String) (h : HistInv s) :
    HistInv (submitStep s q) := by
  obtain ⟨hlen, hchain, hidx⟩ := h
  refine ⟨?_, ?_, Or.inl rfl⟩ <;> unfold submitStep <;>
    by_cases hg : s.hist.getLast? ≠ some q
  · rw [if_pos hg]
    simp only
    split
    · simp [queryHistoryMax] at *; omega
    · simp [queryHistoryMax] at *; omega
  · rw [if_neg hg]; exact hlen
  · rw [if_pos hg]
    simp only
    have hch2 : (s.hist ++ [q]).Chain' (· ≠ ·) := by
      rw [List.chain'_append]
      refine ⟨hchain, List.chain'_singleton q, ?_⟩
      intro x hx y hy
      simp at hy
      subst hy
      intro he
      exact hg (by rw [← he]; exact hx)
    split
    · exact hch2.tail
    · exact hch2
  · rw [if_neg hg]; exact hchain

theorem cycleUpStep_inv (s : HistState) (h : HistInv s) : HistInv (cycleUpStep s) := by
  obtain ⟨hlen, hchain, hidx⟩ := h
  unfold cycleUpStep
  by_cases he : s.hist.isEmpty
  · rw [if_pos he]; exact ⟨hlen, hchain, hidx⟩
  · rw [if_neg he]
    have hne : s.hist ≠ [] := by simpa [List.isEmpty_iff] using he
    have hpos : 0 < s.hist.length := List.length_pos.mpr hne
    by_cases hi : s.idx = -1
    · rw [if_pos hi]
      refine ⟨hlen, hchain, Or.inr ⟨by dsimp only; omega, by dsimp only; omega⟩⟩
    · rw [if_neg hi]
      rcases hidx with hidx | hidx
      · exact absurd hidx hi
      · by_cases hp : s.idx > 0
        · rw [if_pos hp]
          exact ⟨hlen, hchain, Or.inr ⟨by dsimp only; omega, by dsimp only; omega⟩⟩
        · rw [if_neg hp]
          exact ⟨hlen, hchain, Or.inr hidx⟩

theorem cycleDownStep_inv (s : HistState) (h : HistInv s) : HistInv (cycleDownStep s) := by
  obtain ⟨hlen, hchain, hidx⟩ := h
  unfold cycleDownStep
  by_cases he : s.hist.isEmpty
  · rw [if_pos he]; exact ⟨hlen, hchain, hidx⟩
  · rw [if_neg he]
    by_cases hi : s.idx = -1
    · rw [if_pos hi]; exact ⟨hlen, hchain, hidx⟩
    · rw [if_neg hi]
      rcases hidx with hidx | hidx
      · exact absurd hidx hi
      · by_cases hb : s.idx + 1 ≥ (s.hist.length : Int)
        · rw [if_pos hb]
          exact ⟨hlen, hchain, Or.inl rfl⟩
        · rw [if_neg hb]
          exact ⟨hlen, hchain, Or.inr ⟨by dsimp only; omega, by dsimp only; omega⟩⟩

theorem histStep_inv (s : HistState) (op : HistOp) (h : HistInv s) :
    HistInv (histStep s op) := by
  cases op with
  | submit q => exact submitStep_inv s q h
  | cycleUp => exact cycleUpStep_inv s h
  | cycleDown => exact cycleDownStep_inv s h
  | resetIdx => exact ⟨h.1, h.2.1, Or.inl rfl⟩

/-- C8: after any sequence of query submissions and history-cycling
operations, the history holds at most 50 entries, no two adjacent
entries are equal, and the cycling index is `-1` or a valid index. -/
theorem queryHistory_invariant (ops : List HistOp) : HistInv (runHist ops) := by
  have hgen : ∀ (l : List HistOp) (s : HistState),
      HistInv s → HistInv (l.foldl histStep s) := by
    intro l
    induction l with
    | nil => intro s hs; exact hs
    | cons op rest ih =>
      intro s hs
      exact ih (histStep s op) (histStep_inv s op hs)
  exact hgen ops initHistState
    ⟨by simp [initHistState, queryHistoryMax], by simp [initHistState], Or.inl rfl⟩

/-- Witness for C8 at a concrete operation sequence. -/
theorem queryHistory_invariant_witness :
    HistInv (runHist [HistOp.submit "show invoices", HistOp.cycleUp,
      HistOp.submit "open tickets", HistOp.cycleDown]) :=
  queryHistory_invariant _

/-! ## State.addMessage and State.setActiveSession (src/js/state.js
lines 109-118 and 127-147)

`State.sessions` is the object mapping session names to message arrays;
it is embedded as an association list read and written at the first
matching key.  `μ` is the type of stored message objects. -/

/-- The chat session state. -/
structure ChatState (μ : Type) where
  sessions : List (String × List μ)
  activeSession : String

/-- The sessions object built by `State.init` and `State.clearMessages`. -/
def initChatState (μ : Type) : ChatState μ :=
  { sessions := [("all", []), ("stripe", []), ("zendesk", []), ("github", [])],
    activeSession := "all" }

/-- Read `State.sessions[k]`. -/
def lookupSession (ss : List (String × List μ)) (k : String) : Option (List μ) :=
  match ss with
  | [] => none
  | (k2, v) :: rest => if k2 = k then some v else lookupSession rest k

/-- Append to `State.sessions[k]` when the key is present. -/
def pushSession (ss : List (String × List μ)) (k : String) (m : μ) :
    List (String × List μ) :=
  match ss with
  | [] => []
  | (k2, v) :: rest =>
    if k2 = k then (k2, v ++ [m]) :: rest else (k2, v) :: pushSession rest k m

/-- Model of `State.addMessage`: always push to the all session, then
push to the platform session when the platform argument is truthy and
names a session, else to the active session when it is not all and
names a session.  The empty string models a null platform. -/
def addMessage (st : ChatState μ) (msg : μ) (platform : String) : ChatState μ :=
  let ss1 := pushSession st.sessions "all" msg
  let ss2 :=
    if platform ≠ "" ∧ (lookupSession ss1 platform).isSome then
      pushSession ss1 platform msg
    else if st.activeSession ≠ "all" ∧ (lookupSession ss1 st.activeSession).isSome then
      pushSession ss1 st.activeSession msg
    else ss1
  { st with sessions := ss2 }

/-- Model of `State.setActiveSession`: switch and return true when the
key names a session (session arrays are always truthy), else leave the
state unchanged and return false. -/
def setActiveSession (st : ChatState μ) (s : String) : ChatState μ × Bool :=
  if (lookupSession st.sessions s).isSome then
    ({ st with activeSession := s }, true)
  else (st, false)

/-- The number of messages stored under a session key. -/
def lenAt (ss : List (String × List μ)) (k : String) : Nat :=
  match lookupSession ss k with
  | some l => l.length
  | none => 0

/-- The number of messages in session `k` of a state. -/
def sessionLen (st : ChatState μ) (k : String) : Nat := lenAt st.sessions k

theorem lookup_pushSession (ss : List (String × List μ)) (k k2 : String) (m : μ) :
    lookupSession (pushSession ss k m) k2 =
      if k2 = k then (lookupSession ss k2).map (fun l => l ++ [m])
      else lookupSession ss k2 := by
  induction ss with
  | nil => simp [pushSession, lookupSession]
  | cons p rest ih =>
    obtain ⟨k3, v⟩ := p
    by_cases h3 : k3 = k
    · subst h3
      by_cases h2 : k2 = k3
      · subst h2
        simp [pushSession, lookupSession]
      · have h2b : k3 ≠ k2 := fun he => h2 he.symm
        simp [pushSession, lookupSession, h2, h2b]
    · by_cases h2 : k3 = k2
      · subst h2
        simp [pushSession, lookupSession, h3, ih]
      · by_cases h4 : k2 = k
        · subst h4
          simp [pushSession, lookupSession, h3, h2, ih]
        · simp [pushSession, lookupSession, h3, h2, h4, ih]

theorem lenAt_push (ss : List (String × List μ)) (q : String) (m : μ) (k : String) :
    lenAt (pushSession ss q m) k =
      if k = q ∧ (lookupSession ss k).isSome then lenAt ss k + 1 else lenAt ss k := by
  unfold lenAt
  rw [lookup_pushSession]
  by_cases hk : k = q
  · rw [if_pos hk]
    cases hl : lookupSession ss k with
    | none => rw [if_neg (by simp [hl])]; simp
    | some l => rw [if_pos (by simp [hl, hk])]; simp
  · rw [if_neg hk, if_neg (by simp [hk])]

theorem isSome_lookup_push (ss : List (String × List μ)) (q : String) (m : μ) (k : String) :
    (lookupSession (pushSession ss q m) k).isSome = (lookupSession ss k).isSome := by
  rw [lookup_pushSession]
  by_cases hk : k = q
  · rw [if_pos hk]; cases lookupSession ss k <;> rfl
  · rw [if_neg hk]

theorem addMessage_sessions (st : ChatState μ) (msg : μ) (platform : String) :
    (addMessage st msg platform).sessions =
      (let ss1 := pushSession st.sessions "all" msg
       if platform ≠ "" ∧ (lookupSession ss1 platform).isSome then
         pushSession ss1 platform msg
       else if st.activeSession ≠ "all" ∧ (lookupSession ss1 st.activeSession).isSome then
         pushSession ss1 st.activeSession msg
       else ss1) := rfl

theorem addMessage_grows (st : ChatState μ) (msg : μ) (p k : String)
    (hp : p ≠ "all") (hk : k ≠ "all") :
    sessionLen (addMessage st msg p) "all"
        = (if (lookupSession st.sessions "all").isSome then sessionLen st "all" + 1
           else sessionLen st "all")
    ∧ (sessionLen (addMessage st msg p) k = sessionLen st k
        ∨ sessionLen (addMessage st msg p) k = sessionLen st k + 1) := by
  have hne : ∀ k2 : String, k2 ≠ "all" →
      lenAt (pushSession st.sessions "all" msg) k2 = lenAt st.sessions k2 := by
    intro k2 h2
    rw [lenAt_push, if_neg (by simp [h2])]
  unfold sessionLen
  rw [addMessage_sessions]
  simp only
  by_cases hc1 : p ≠ "" ∧ (lookupSession (pushSession st.sessions "all" msg) p).isSome
  · rw [if_pos hc1]
    refine ⟨?_, ?_⟩
    · rw [lenAt_push, if_neg (fun hand => hp hand.1.symm), lenAt_push]
      by_cases ha : (lookupSession st.sessions "all").isSome
      · rw [if_pos ⟨rfl, ha⟩, if_pos ha]
      · rw [if_neg (fun hand => ha hand.2), if_neg ha]
    · rw [lenAt_push]
      by_cases hkp : k = p ∧ (lookupSession (pushSession st.sessions "all" msg) k).isSome
      · rw [if_pos hkp, hne k hk]
        exact Or.inr rfl
      · rw [if_neg hkp, hne k hk]
        exact Or.inl rfl
  · rw [if_neg hc1]
    by_cases hc2 : st.activeSession ≠ "all"
        ∧ (lookupSession (pushSession st.sessions "all" msg) st.activeSession).isSome
    · rw [if_pos hc2]
      refine ⟨?_, ?_⟩
      · rw [lenAt_push, if_neg (fun hand => hc2.1 hand.1.symm), lenAt_push]
        by_cases ha : (lookupSession st.sessions "all").isSome
        · rw [if_pos ⟨rfl, ha⟩, if_pos ha]
        · rw [if_neg (fun hand => ha hand.2), if_neg ha]
      · rw [lenAt_push]
        by_cases hka : k = st.activeSession
            ∧ (lookupSession (pushSession st.sessions "all" msg) k).isSome
        · rw [if_pos hka, hne k hk]
          exact Or.inr rfl
        · rw [if_neg hka, hne k hk]
          exact Or.inl rfl
    · rw [if_neg hc2]
      refine ⟨?_, ?_⟩
      · rw [lenAt_push]
        by_cases ha : (lookupSession st.sessions "all").isSome
        · rw [if_pos ⟨rfl, ha⟩, if_pos ha]
        · rw [if_neg (fun hand => ha hand.2), if_neg ha]
      · rw [hne k hk]
        exact Or.inl rfl

theorem addMessage_unique_growth (st : ChatState μ) (msg : μ) (p k1 k2 : String)
    (hk1 : k1 ≠ "all") (hk2 : k2 ≠ "all") (hne12 : k1 ≠ k2) :
    ¬(sessionLen (addMessage st msg p) k1 = sessionLen st k1 + 1
      ∧ sessionLen (addMessage st msg p) k2 = sessionLen st k2 + 1) := by
  rintro ⟨g1, g2⟩
  have hne : ∀ k : String, k ≠ "all" →
      lenAt (pushSession st.sessions "all" msg) k = lenAt st.sessions k := by
    intro k h2
    rw [lenAt_push, if_neg (by simp [h2])]
  have target : ∀ q : String, q ≠ "all" → ∀ k : String, k ≠ "all" →
      lenAt (pushSession (pushSession st.sessions "all" msg) q msg) k
        = lenAt st.sessions k + 1 → k = q := by
    intro q hq k hk hg
    rw [lenAt_push] at hg
    by_cases hkq : k = q ∧ (lookupSession (pushSession st.sessions "all" msg) k).isSome
    · exact hkq.1
    · rw [if_neg hkq, hne k hk] at hg
      omega
  unfold sessionLen at g1 g2
  rw [addMessage_sessions] at g1 g2
  simp only at g1 g2
  by_cases hc1 : p ≠ "" ∧ (lookupSession (pushSession st.sessions "all" msg) p).isSome
  · rw [if_pos hc1] at g1 g2
    by_cases hpall : p = "all"
    · subst hpall
      rw [lenAt_push, if_neg (fun hand => hk1 hand.1), hne k1 hk1] at g1
      omega
    · have e1 := target p hpall k1 hk1 g1
      have e2 := target p hpall k2 hk2 g2
      exact hne12 (e1.trans e2.symm)
  · rw [if_neg hc1] at g1 g2
    by_cases hc2 : st.activeSession ≠ "all"
        ∧ (lookupSession (pushSession st.sessions "all" msg) st.activeSession).isSome
    · rw [if_pos hc2] at g1 g2
      have e1 := target st.activeSession hc2.1 k1 hk1 g1
      have e2 := target st.activeSession hc2.1 k2 hk2 g2
      exact hne12 (e1.trans e2.symm)
    · rw [if_neg hc2] at g1 g2
      rw [hne k1 hk1] at g1
      omega

theorem setActiveSession_spec (st : ChatState μ) (s : String) :
    ((setActiveSession st s).2 = true ↔ (lookupSession st.sessions s).isSome = true)
    ∧ (setActiveSession st s).1.sessions = st.sessions
    ∧ ((setActiveSession st s).2 = true → (setActiveSession st s).1.activeSession = s)
    ∧ ((setActiveSession st s).2 = false → (setActiveSession st s).1 = st) := by
  unfold setActiveSession
  by_cases h : (lookupSession st.sessions s).isSome <;> simp [h]

/-- C9 counterexample: calling `State.addMessage` with the platform
argument set to the string naming the all session pushes the message to
`sessions.all` twice — the all session grows by two in one call,
refuting the exactly-once part of the claim. -/
theorem addMessage_platform_all_double :
    sessionLen (addMessage (initChatState Unit) () "all") "all" = 2
    ∧ sessionLen (initChatState Unit) "all" = 0 := ⟨rfl, rfl⟩

/-- C9 amended: for every platform argument other than the string
naming the all session, `State.addMessage` grows `sessions.all` by
exactly one, grows every other session by at most one, and grows at
most one session besides all; and `State.setActiveSession` returns true
and switches exactly when the argument names an existing session,
leaving the state unchanged and returning false otherwise. -/
theorem state_sessions_spec (μ : Type) (st : ChatState μ) (msg : μ) (p s : String)
    (hall : (lookupSession st.sessions "all").isSome = true) (hp : p ≠ "all") :
    sessionLen (addMessage st msg p) "all" = sessionLen st "all" + 1
    ∧ (∀ k, k ≠ "all" → sessionLen (addMessage st msg p) k = sessionLen st k
        ∨ sessionLen (addMessage st msg p) k = sessionLen st k + 1)
    ∧ (∀ k1 k2, k1 ≠ "all" → k2 ≠ "all" → k1 ≠ k2 →
        ¬(sessionLen (addMessage st msg p) k1 = sessionLen st k1 + 1
          ∧ sessionLen (addMessage st msg p) k2 = sessionLen st k2 + 1))
    ∧ ((setActiveSession st s).2 = true ↔ (lookupSession st.sessions s).isSome = true)
    ∧ (setActiveSession st s).1.sessions = st.sessions
    ∧ ((setActiveSession st s).2 = true → (setActiveSession st s).1.activeSession = s)
    ∧ ((setActiveSession st s).2 = false → (setActiveSession st s).1 = st) := by
  have hspec := setActiveSession_spec st s
  refine ⟨?_, ?_, ?_, hspec.1, hspec.2.1, hspec.2.2.1, hspec.2.2.2⟩
  · have h := (addMessage_grows st msg p "left" hp (by decide)).1
    rw [if_pos hall] at h
    exact h
  · intro k hk
    exact (addMessage_grows st msg p k hp hk).2
  · intro k1 k2 hk1 hk2 hne12
    exact addMessage_unique_growth st msg p k1 k2 hk1 hk2 hne12

/-- Witness for the amended C9 at a concrete state and platform. -/
theorem state_sessions_spec_witness :
    sessionLen (addMessage (initChatState Unit) () "stripe") "all"
      = sessionLen (initChatState Unit) "all" + 1 :=
  (state_sessions_spec Unit (initChatState Unit) () "stripe" "github"
    rfl (by decide)).1

/-! ## App.renderChart dataset styling (src/static/js/app.js lines
2842-2930)

`renderChart` walks `config.data.datasets` in order and assigns colors
and style attributes from fixed palettes indexed by dataset position
and data-point position; it never reorders labels, datasets or data.
Gradients are embedded by their color stops; numeric style values are
rationals. -/


structure DatasetIn where
  label : String := ""
  data : Option (List Rat) := none

inductive ColorSpec where
  | single (c : String)
  | perPoint (cs : List String)
  | grad (stops : List (Rat × String))

structure DatasetStyled where
  label : String := ""
  data : Option (List Rat) := none
  backgroundColor : Option ColorSpec := none
  borderColor : Option ColorSpec := none
  borderWidth : Option Rat := none
  borderRadius : Option Rat := none
  barPercentage : Option Rat := none
  tension : Option Rat := none
  fill : Option Bool := none
  pointBackgroundColor : Option String := none
  pointBorderColor : Option String := none
  pointBorderWidth : Option Rat := none
  pointRadius : Option Rat := none
  pointHoverRadius : Option Rat := none
  hoverOffset : Option Rat := none
  showLine : Option Bool := none

structure ChartConfig where
  ctype : String
  labels : List String
  datasets : List DatasetIn

structure StyledChart where
  ctype : String
  labels : List String
  datasets : List DatasetStyled

def colorPairs : List (String × String) :=
  [("#1e1b4b", "#312e81"), ("#064e3b", "#065f46"), ("#78350f", "#92400e"),
   ("#831843", "#9f1239"), ("#083344", "#0e7490"), ("#4c1d95", "#5b21b6"),
   ("#7c2d12", "#991b1b"), ("#14532d", "#166534")]

def vibrantColors : List String :=
  ["#1e1b4b", "#312e81", "#4c1d95", "#5b21b6", "#831843",
   "#9f1239", "#7c2d12", "#991b1b", "#064e3b", "#065f46",
   "#083344", "#0e7490", "#14532d", "#166534", "#78350f",
   "#92400e", "#581c87", "#6b21a8", "#7e22ce"]

def pieColors : List String :=
  ["#1e1b4b", "#312e81", "#4c1d95", "#5b21b6", "#6b21a8",
   "#831843", "#9f1239", "#7c2d12", "#991b1b", "#064e3b",
   "#065f46", "#083344", "#0e7490", "#14532d", "#166534",
   "#78350f", "#92400e", "#581c87", "#7e22ce", "#6d1b69"]

def enhanceDataset (ctype : String) (i : Nat) (ds : DatasetIn) : DatasetStyled :=
  let colorPair := colorPairs.getD (i % colorPairs.length) ("", "")
  if ctype = "bar" then
    match ds.data with
    | some arr =>
      { label := ds.label, data := ds.data,
        backgroundColor := some (ColorSpec.perPoint
          (arr.enum.map (fun p => vibrantColors.getD (p.1 % vibrantColors.length) ""))),
        borderColor := some (ColorSpec.perPoint
          (arr.enum.map (fun p => vibrantColors.getD (p.1 % vibrantColors.length) ""))),
        borderWidth := some 2.5, borderRadius := some 8, barPercentage := some 0.7 }
    | none =>
      { label := ds.label, data := ds.data,
        backgroundColor := some (ColorSpec.single
          (vibrantColors.getD (i % vibrantColors.length) "")),
        borderColor := some (ColorSpec.single
          (vibrantColors.getD (i % vibrantColors.length) "")),
        borderWidth := some 2.5, borderRadius := some 8, barPercentage := some 0.7 }
  else if ctype = "line" then
    { label := ds.label, data := ds.data,
      backgroundColor := some (ColorSpec.grad
        [(0, colorPair.1), (0.5, colorPair.2), (1, "rgba(30, 27, 75, 0.05)")]),
      borderColor := some (ColorSpec.single colorPair.2),
      borderWidth := some 3.5, tension := some 0.4, fill := some true,
      pointBackgroundColor := some colorPair.2,
      pointBorderColor := some "rgba(255, 255, 255, 0.6)",
      pointBorderWidth := some 3, pointRadius := some 5, pointHoverRadius := some 7 }
  else if ctype = "doughnut" ∨ ctype = "pie" then
    { label := ds.label, data := ds.data,
      borderWidth := some 3,
      borderColor := some (ColorSpec.single "rgba(255, 255, 255, 0.4)"),
      hoverOffset := some 25, borderRadius := some 8,
      backgroundColor := some
        (match ds.data with
         | some arr => ColorSpec.perPoint
             (arr.enum.map (fun p => pieColors.getD (p.1 % pieColors.length) ""))
         | none => ColorSpec.perPoint pieColors) }
  else if ctype = "scatter" then
    { label := ds.label, data := ds.data,
      backgroundColor := some (ColorSpec.single colorPair.1),
      borderColor := some (ColorSpec.single colorPair.2),
      pointBackgroundColor := some colorPair.1,
      pointBorderColor := some colorPair.2,
      pointBorderWidth := some 3, pointRadius := some 6, pointHoverRadius := some 8,
      showLine := some false }
  else
    { label := ds.label, data := ds.data }

def renderChartDatasets (cfg : ChartConfig) : StyledChart :=
  { ctype := cfg.ctype, labels := cfg.labels,
    datasets := cfg.datasets.enum.map (fun p => enhanceDataset cfg.ctype p.1 p.2) }

theorem enhanceDataset_data (ctype : String) (i : Nat) (ds : DatasetIn) :
    (enhanceDataset ctype i ds).data = ds.data ∧ (enhanceDataset ctype i ds).label = ds.label := by
  unfold enhanceDataset
  by_cases h1 : ctype = "bar"
  · simp only [h1, if_pos rfl]
    cases ds.data <;> simp
  · rw [if_neg h1]
    by_cases h2 : ctype = "line"
    · simp [h2]
    · rw [if_neg h2]
      by_cases h3 : ctype = "doughnut" ∨ ctype = "pie"
      · simp only [if_pos h3]
        cases ds.data <;> simp
      · rw [if_neg h3]
        by_cases h4 : ctype = "scatter"
        · simp [h4]
        · simp [h4]

/-- C6: chart rendering is deterministic — structurally equal configs
produce identical styled output — and the emitted order of labels,
datasets and data values matches the order given in the config
(first-seen order, never a re-sort). -/
theorem renderChart_deterministic (c1 c2 : ChartConfig) (h : c1 = c2) :
    renderChartDatasets c1 = renderChartDatasets c2
    ∧ (renderChartDatasets c1).labels = c1.labels
    ∧ (renderChartDatasets c1).datasets.map (fun d => d.data)
        = c1.datasets.map (fun d => d.data)
    ∧ (renderChartDatasets c1).datasets.map (fun d => d.label)
        = c1.datasets.map (fun d => d.label)
    ∧ (renderChartDatasets c1).datasets.length = c1.datasets.length := by
  subst h
  refine ⟨rfl, rfl, ?_, ?_, ?_⟩
  · show (c1.datasets.enum.map (fun p => enhanceDataset c1.ctype p.1 p.2)).map
        (fun d => d.data) = _
    rw [List.map_map]
    have he : ((fun d : DatasetStyled => d.data) ∘
        (fun p : Nat × DatasetIn => enhanceDataset c1.ctype p.1 p.2))
        = (fun p : Nat × DatasetIn => p.2.data) := by
      funext p
      exact (enhanceDataset_data c1.ctype p.1 p.2).1
    rw [he]
    have h2 : (fun p : Nat × DatasetIn => p.2.data)
        = (fun d : DatasetIn => d.data) ∘ Prod.snd := rfl
    rw [h2, ← List.map_map, List.enum_map_snd]
  · show (c1.datasets.enum.map (fun p => enhanceDataset c1.ctype p.1 p.2)).map
        (fun d => d.label) = _
    rw [List.map_map]
    have he : ((fun d : DatasetStyled => d.label) ∘
        (fun p : Nat × DatasetIn => enhanceDataset c1.ctype p.1 p.2))
        = (fun p : Nat × DatasetIn => p.2.label) := by
      funext p
      exact (enhanceDataset_data c1.ctype p.1 p.2).2
    rw [he]
    have h2 : (fun p : Nat × DatasetIn => p.2.label)
        = (fun d : DatasetIn => d.label) ∘ Prod.snd := rfl
    rw [h2, ← List.map_map, List.enum_map_snd]
  · show (c1.datasets.enum.map (fun p => enhanceDataset c1.ctype p.1 p.2)).length = _
    rw [List.length_map, List.enum_length]


/-- The concrete chart configuration used by the C6 witness. -/
def exChartConfig : ChartConfig :=
  { ctype := "bar", labels := ["open", "closed"],
    datasets := [{ label := "tickets", data := some [3, 5] }] }

/-- Witness for C6 at a concrete configuration. -/
theorem renderChart_deterministic_witness :
    (renderChartDatasets exChartConfig).labels = ["open", "closed"] := by
  have h := (renderChart_deterministic exChartConfig exChartConfig rfl).2.1
  exact h.trans rfl

/-! ## Suggestion Engine and the autocomplete focus path

The client side is `App.bindEvents` (focus fires
`App.handleAutocomplete(queryInput.value or the empty string)`),
`App.handleAutocomplete` (requests suggestions for the trimmed text
with limit 15 and shows the dropdown exactly when the response list is
non-empty) and `App.renderAutocomplete` / `App.hideAutocomplete`.  The
server-side Suggestion Engine and the `API.getQuerySuggestions` wrapper
are not part of the repository sources available here, so they are
modelled from the specification. -/

/-- A ranked suggestion as the endpoint returns it. -/
structure Suggestion where
  stype : String
  label : String
  text : String
  platform : Option String := none
  deriving DecidableEq

/-- Modelled from the spec: the static pattern templates of the
Suggestion Engine (its code is not under the available sources); the
spec requires a non-empty default pattern list. -/
def defaultPatterns : List Suggestion :=
  [{ stype := "pattern", label := "Show unpaid invoices", text := "Show unpaid invoices",
     platform := some "stripe" },
   { stype := "pattern", label := "Show open tickets", text := "Show open tickets",
     platform := some "zendesk" },
   { stype := "pattern", label := "Show recent deals", text := "Show recent deals",
     platform := some "zoho" },
   { stype := "pattern", label := "Show my repositories", text := "Show my repositories",
     platform := some "github" },
   { stype := "pattern", label := "Show revenue this month", text := "Show revenue this month",
     platform := some "stripe" }]

/-- Deduplicate by suggestion text, keeping the first occurrence. -/
def dedupByText (l : List Suggestion) : List Suggestion :=
  l.foldl (fun acc s2 => if acc.any (fun t => t.text = s2.text) then acc else acc ++ [s2]) []

/-- Modelled from the spec: `suggest(partial_text, limit)` of the
Suggestion Engine (its code is not under the available sources) —
prefix-matched saved queries first, then deduplicated history, then
pattern templates by keyword containment, capped at the limit; for
empty partial text the full default pattern list is the pattern
component. -/
def suggest (saved history : List Suggestion) (partialText : String) (limit : Nat) :
    List Suggestion :=
  let savedM := saved.filter (fun s2 => partialText.data.isPrefixOf s2.text.data)
  let histM := dedupByText (history.filter (fun s2 => partialText.data.isPrefixOf s2.text.data))
  let patM :=
    if partialText = "" then defaultPatterns
    else defaultPatterns.filter (fun s2 => containsSub s2.text.data partialText.data)
  (savedM ++ histM ++ patM).take limit

/-- Model of `String.prototype.trim`. -/
def jsTrim (s : String) : String :=
  String.mk (((s.data.dropWhile (fun c => isJsWs c)).reverse.dropWhile
    (fun c => isJsWs c)).reverse)

/-- Model of the tail of `App.handleAutocomplete`: a non-empty
suggestion list is rendered and the dropdown shown, an empty one hides
the dropdown. -/
def autocompleteShown (suggestions : List Suggestion) : Bool × List Suggestion :=
  if suggestions.length > 0 then (true, suggestions) else (false, [])

/-- Model of the focus handler path: `App.handleAutocomplete` is called
with the input value, requests `suggest` for the trimmed text (the
empty string when the input is empty) with limit 15, and shows or hides
the dropdown by the response. -/
def focusAutocomplete (saved history : List Suggestion) (inputValue : String) :
    Bool × List Suggestion :=
  let q := if inputValue = "" then "" else jsTrim inputValue
  autocompleteShown (suggest saved history q 15)

theorem suggest_empty_nonempty (saved history : List Suggestion) :
    0 < (suggest saved history "" 15).length := by
  unfold suggest
  simp only [if_pos rfl]
  rw [List.length_take]
  have h1 : 0 < (saved.filter (fun s2 => "".data.isPrefixOf s2.text.data)
      ++ dedupByText (history.filter (fun s2 => "".data.isPrefixOf s2.text.data))
      ++ defaultPatterns).length := by
    rw [List.length_append]
    have : 0 < defaultPatterns.length := by decide
    omega
  rw [lt_min_iff]
  exact ⟨by norm_num, h1⟩

/-- C5: focusing the empty query input requests suggestions for the
empty string; the returned list is non-empty (with no saved queries or
history it is exactly the non-empty default pattern list, every entry
of pattern type) and the dropdown is shown, not hidden. -/
theorem focus_empty_shows_default_patterns (saved history : List Suggestion) :
    (focusAutocomplete saved history "").1 = true
    ∧ (focusAutocomplete saved history "").2 = suggest saved history "" 15
    ∧ 0 < (suggest saved history "" 15).length
    ∧ suggest [] [] "" 15 = defaultPatterns
    ∧ defaultPatterns ≠ []
    ∧ (∀ s2 ∈ suggest [] [] "" 15, s2.stype = "pattern") := by
  have hlen := suggest_empty_nonempty saved history
  refine ⟨?_, ?_, hlen, by decide, by decide, by decide⟩
  · show (autocompleteShown (suggest saved history "" 15)).1 = true
    unfold autocompleteShown
    rw [if_pos hlen]
  · show (autocompleteShown (suggest saved history "" 15)).2 = _
    unfold autocompleteShown
    rw [if_pos hlen]

/-- Witness for C5 with no saved queries and no history. -/
theorem focus_empty_shows_default_patterns_witness :
    (focusAutocomplete [] [] "").1 = true :=
  (focus_empty_shows_default_patterns [] []).1

/-! ## Visualization Analyst

The Visualization Analyst runs in the backend pipeline, whose code is
not part of the repository sources available here; it is modelled from
the specification, section 4.4. -/

/-- Modelled from the spec: a normalized field value — categorical,
numeric, or time-stamped. -/
inductive FieldVal where
  | cat (s : String)
  | num (q : Rat)
  | time (t : Nat)
  deriving DecidableEq

/-- Modelled from the spec: one normalized upstream record. -/
structure VItem where
  fields : List (String × FieldVal)
  deriving DecidableEq

/-- Modelled from the spec: one FetchResult of an AggregateResult. -/
structure VFetchResult where
  platform : String
  success : Bool
  items : List VItem
  truncated : Bool := false
  deriving DecidableEq

/-- Modelled from the spec: the emitted ChartSpec. -/
structure ChartSpec where
  ctype : String
  labels : List String
  datasets : List (String × List Rat)
  deriving DecidableEq

/-- Read a named field of a record. -/
def lookupField (it : VItem) (name : String) : Option FieldVal :=
  (it.fields.find? (fun p => p.1 = name)).map Prod.snd

/-- The categorical values a field takes across the items, in order. -/
def catValuesAt (items : List VItem) (name : String) : List String :=
  items.filterMap (fun it =>
    match lookupField it name with
    | some (FieldVal.cat s) => some s
    | _ => none)

/-- The time values a field takes across the items, in order. -/
def timeValuesAt (items : List VItem) (name : String) : List Nat :=
  items.filterMap (fun it =>
    match lookupField it name with
    | some (FieldVal.time t) => some t
    | _ => none)

/-- The numeric values a field takes across the items, in order. -/
def numValuesAt (items : List VItem) (name : String) : List Rat :=
  items.filterMap (fun it =>
    match lookupField it name with
    | some (FieldVal.num q) => some q
    | _ => none)

/-- Is the list sorted non-decreasingly? -/
def nondecreasing : List Nat → Bool
  | [] => true
  | [_] => true
  | a :: b :: t => decide (a ≤ b) && nondecreasing (b :: t)

/-- The field names of a record. -/
def fieldNamesOf (it : VItem) : List String := it.fields.map Prod.fst

/-- Modelled from the spec: a repeated categorical dimension — the
field is categorical on every item and some value repeats. -/
def repeatedCategoricalAt (items : List VItem) (name : String) : Bool :=
  decide ((catValuesAt items name).length = items.length)
    && decide ((catValuesAt items name).dedup.length < items.length)

/-- The name of the first numeric field of the leading record. -/
def numNameAt (items : List VItem) : Option String :=
  match items with
  | [] => none
  | it :: _ => (it.fields.find? (fun p =>
      match p.2 with
      | FieldVal.num _ => true
      | _ => false)).map Prod.fst

/-- Modelled from the spec: a time-ordered numeric dimension — the
field is a time stamp on every item, in non-decreasing order, and a
numeric field is present. -/
def timeOrderedNumericAt (items : List VItem) (name : String) : Bool :=
  decide ((timeValuesAt items name).length = items.length)
    && nondecreasing (timeValuesAt items name)
    && (numNameAt items).isSome

/-- Is the field value numeric? -/
def isNumField : FieldVal → Bool
  | FieldVal.num _ => true
  | _ => false

/-- Is the field value categorical? -/
def isCatField : FieldVal → Bool
  | FieldVal.cat _ => true
  | _ => false

/-- Modelled from the spec: does a result set carry the primary
numeric-or-breakdown-bearing dataset? -/
def hasNumericOrBreakdown (items : List VItem) : Bool :=
  match items with
  | [] => false
  | it :: _ => it.fields.any (fun p => isNumField p.2 || isCatField p.2)

/-- Modelled from the spec: the chart derived from a suitable result
set — time-series-shaped data gives a line chart, categorical counts
give a doughnut for at most twelve distinct categories and a bar chart
beyond that, with category order the first-seen order. -/
def chartFor (items : List VItem) : Option ChartSpec :=
  match items with
  | [] => none
  | it :: _ =>
    match (fieldNamesOf it).find? (fun n => timeOrderedNumericAt items n) with
    | some tname =>
      match numNameAt items with
      | some nname => some
          { ctype := "line",
            labels := (timeValuesAt items tname).map (fun t => toString t),
            datasets := [(nname, numValuesAt items nname)] }
      | none => none
    | none =>
      match (fieldNamesOf it).find? (fun n => repeatedCategoricalAt items n) with
      | some cname =>
        let cats := (catValuesAt items cname).dedup
        some
          { ctype := if cats.length ≤ 12 then "doughnut" else "bar",
            labels := cats,
            datasets := [(cname, cats.map (fun c =>
              (((catValuesAt items cname).filter (fun v => v = c)).length : Rat)))] }
      | none => none

/-- Modelled from the spec: does the result set have at least one
chartable dimension? -/
def hasSuitableDimension (items : List VItem) : Bool :=
  match items with
  | [] => false
  | it :: _ => (fieldNamesOf it).any (fun n =>
      repeatedCategoricalAt items n || timeOrderedNumericAt items n)

/-- Modelled from the spec: the FetchResults that succeeded and carry
the primary dataset. -/
def primaryCandidates (agg : List VFetchResult) : List VFetchResult :=
  agg.filter (fun r => r.success && hasNumericOrBreakdown r.items)

/-- Modelled from the spec: `analyze(AggregateResult)` triggers only
when exactly one FetchResult carries the primary dataset, it succeeded,
and it has at least two items with a suitable dimension; otherwise no
ChartSpec is emitted. -/
def analyze (agg : List VFetchResult) : Option ChartSpec :=
  match primaryCandidates agg with
  | [r] =>
    if 2 ≤ r.items.length ∧ hasSuitableDimension r.items then chartFor r.items
    else none
  | _ => none

/-- C7: an AggregateResult whose single successful FetchResult has
fewer than two items never yields a ChartSpec — `analyze` returns
none. -/
theorem analyze_single_item_none (agg : List VFetchResult) (r : VFetchResult)
    (hs : agg.filter (fun r2 => r2.success) = [r]) (hn : r.items.length < 2) :
    analyze agg = none := by
  have hc : primaryCandidates agg
      = (agg.filter (fun r2 => r2.success)).filter
          (fun r2 => hasNumericOrBreakdown r2.items) := by
    unfold primaryCandidates
    rw [List.filter_filter]
    congr 1
    funext a
    exact Bool.and_comm _ _
  rw [hs] at hc
  unfold analyze
  rw [hc]
  cases hb : hasNumericOrBreakdown r.items with
  | false =>
    rw [List.filter_cons_of_neg (by simp [hb])]
    rfl
  | true =>
    rw [List.filter_cons_of_pos (by simp [hb])]
    simp only [List.filter_nil]
    rw [if_neg (fun hand => by omega)]

/-- A single normalized record with a numeric and a categorical field. -/
def singleItem : VItem :=
  { fields := [("amount", FieldVal.num 100), ("status", FieldVal.cat "open")] }

/-- An AggregateResult with one successful single-item FetchResult. -/
def singleItemAgg : List VFetchResult :=
  [{ platform := "stripe", success := true, items := [singleItem] }]

/-- Witness for C7 at a concrete single-item aggregate. -/
theorem analyze_single_item_none_witness :
    analyze singleItemAgg = none :=
  analyze_single_item_none singleItemAgg
    { platform := "stripe", success := true, items := [singleItem] }
    (by decide) (by decide)

end DataBridge
